import Mathlib

/-!
Verification of the `pssh` directory-to-remote synchronization engine
(`src/client/client.go`, with `src/main.go` and `src/unnamed/part_000` as
earlier iterations of the same program).

Go strings are modelled as `List Char`; paths are byte strings on a Unix
filesystem, so `'/'` is the only separator.  Fallible operations return
`Option`/`Except`; a Go runtime panic is modelled as `none` at the outermost
layer.  The Go standard-library helpers used by the client
(`path/filepath.Clean`, `path/filepath.Join`, `path.Base`,
`strings.TrimPrefix`, `strings.HasPrefix`, `strings.Split`, `strings.Join`)
are embedded below following their documented Unix semantics.
-/

namespace Pssh

/-! ## Generic split / join on a separator character -/

/-- Embeds `strings.Split` on a single-character separator. -/
def splitChar (sep : Char) : List Char → List (List Char)
  | [] => [[]]
  | c :: rest =>
    if c = sep then [] :: splitChar sep rest
    else
      match splitChar sep rest with
      | [] => [[c]]
      | comp :: comps => (c :: comp) :: comps

/-- Embeds `strings.Join` with a single-character separator. -/
def intercalateChar (sep : Char) : List (List Char) → List Char
  | [] => []
  | [c] => c
  | c :: c2 :: cs => c ++ sep :: intercalateChar sep (c2 :: cs)

/-! ## Go standard-library path helpers (Unix rules) -/

/-- One component step of `filepath.Clean`; the stack is kept reversed
(most recent component first).  Empty and `.` components are dropped, `..`
cancels the previous component, vanishes at a root, and accumulates at the
start of a relative path. -/
def cleanStep (rooted : Bool) (stack : List (List Char)) (comp : List Char) :
    List (List Char) :=
  if comp = [] ∨ comp = ['.'] then stack
  else if comp = ['.', '.'] then
    match stack with
    | [] => if rooted then [] else [['.', '.']]
    | top :: rest => if top = ['.', '.'] then comp :: stack else rest
  else comp :: stack

/-- Assemble the cleaned components: a rooted path keeps its leading slash,
and an empty relative result is `.`. -/
def filepathCleanCore (rooted : Bool) (comps : List (List Char)) : List Char :=
  if rooted then
    '/' :: intercalateChar '/' ((comps.foldl (cleanStep rooted) []).reverse)
  else if intercalateChar '/' ((comps.foldl (cleanStep rooted) []).reverse) = [] then
    ['.']
  else
    intercalateChar '/' ((comps.foldl (cleanStep rooted) []).reverse)

/-- Embeds `path/filepath.Clean` on Unix paths. -/
def filepathClean (s : List Char) : List Char :=
  if s = [] then ['.']
  else filepathCleanCore (s.headD ' ' == '/') (splitChar '/' s)

/-- Embeds `path/filepath.Join` of two elements (also `path.Join` on Unix): skip
empty elements, join the rest with `/`, then `Clean`; an all-empty input
yields the empty string. -/
def filepathJoin2 (a b : List Char) : List Char :=
  if a ≠ [] then filepathClean (a ++ '/' :: b)
  else if b ≠ [] then filepathClean b
  else []

/-- Embeds `strings.TrimPrefix s pre` (guarded by `strings.HasPrefix`). -/
def trimPrefixOf (s pre : List Char) : List Char :=
  if pre <+: s then s.drop pre.length else s

/-- Embeds `path.Base`: strip trailing slashes, then keep everything after the last
slash; empty input gives `.`, an all-slash input gives `/`. -/
def pathBase (p : List Char) : List Char :=
  if p = [] then ['.']
  else
    let t := (p.reverse.dropWhile (fun c => c = '/')).reverse
    if t = [] then ['/']
    else (splitChar '/' t).getLastD []

/-- A path component that `Clean` passes through untouched. -/
def PlainComp (c : List Char) : Prop :=
  c ≠ [] ∧ c ≠ ['.'] ∧ c ≠ ['.', '.'] ∧ '/' ∉ c

instance (c : List Char) : Decidable (PlainComp c) := by
  unfold PlainComp
  infer_instance

/-! ## The client embedding

`Client` in `client.go` carries the embedded ssh transport, the `events`
channel, and the `(localDir, remoteDir)` sync-root pair.  The definitions
below embed its methods. -/

/-- The remote-path computation of `remoteUpdateFile` (`client.go` 250-258):
`filepath.Join(c.remoteDir, strings.TrimPrefix(localPath, localDirAbs))`
where `localDirAbs = filepath.Abs(c.localDir)`. -/
def remoteUpdateFilePath (localDirAbs remoteDir localPath : List Char) :
    List Char :=
  filepathJoin2 remoteDir (trimPrefixOf localPath localDirAbs)

/-- The header the goroutine of `copy` writes (`client.go` 218):
`fmt.Fprintf(dst, "C%s %d %s\n", perms, sz, file)`. -/
def scpHeader (perms : List Char) (sz : Nat) (file : List Char) : List Char :=
  'C' :: (perms ++ ' ' :: (toString sz).data ++ ' ' :: (file ++ ['\n']))

/-- Every byte `copy` (`client.go` 200-224) writes to the session's stdin:
the header with `file := path.Base(dstpath)`, then `io.Copy(dst, src)`
streams every byte of the source (the declared `sz` is not enforced; see the
TODO at line 217), then the single NUL terminator `fmt.Fprintf(dst, "\x00")`. -/
def copyStdinBytes (dstpath perms : List Char) (sz : Nat) (src : List Char) :
    List Char :=
  scpHeader perms sz (pathBase dstpath) ++ src ++ ['\x00']

/-- Stdin bytes of a push issued through `copyFromFile` (`client.go`
227-230): the declared size is the `Stat` snapshot of the file, i.e. the
byte length of its content. -/
def copyFromFileBytes (content remotePath perms : List Char) : List Char :=
  copyStdinBytes remotePath perms content.length content

/-- Stdin bytes of a push issued through `syncFiles` (`client.go` 233-246):
the permission string is always `"0755"`. -/
def syncFilesBytes (content remotePath : List Char) : List Char :=
  copyFromFileBytes content remotePath ("0755").data

/-- Result of `ssh.Session.Run`: `ok` for exit status 0, otherwise an
`ssh.ExitError` carrying the remote exit status. -/
inductive RunResult
  | ok
  | exitErr (status : Nat)
deriving DecidableEq

/-- The message of `ssh.ExitError` (`Waitmsg.String`): it contains the exit
status and never the destination path. -/
def exitErrBytes (status : Nat) : List Char :=
  ("Process exited with status ").data ++ (toString status).data

/-- The error value of a `RunResult`, as `copy` returns it. -/
def runErrMsg : RunResult → Option (List Char)
  | .ok => none
  | .exitErr s => some (exitErrBytes s)

/-- The return value of `copy` (`client.go` 223): exactly the result of
`sess.Run("/usr/bin/scp -qt " + dirp)`; nothing of the arguments reaches the
returned error. -/
def copyResult (dstpath perms : List Char) (sz : Nat) (src : List Char)
    (rr : RunResult) : Option (List Char) :=
  runErrMsg rr

/-- Embeds `copyFromFile` (`client.go` 227-230): `stat, _ := file.Stat()` discards
the error, then `stat.Size()` is called unconditionally.  `statInfo = none`
models a failed `Stat` (nil `FileInfo`); the outer `none` is the resulting
nil-dereference runtime panic. -/
def copyFromFileRun (statInfo : Option Nat) (content remotePath perms : List Char)
    (rr : RunResult) : Option (Option (List Char)) :=
  match statInfo with
  | none => none
  | some sz => some (copyResult remotePath perms sz content rr)

/-! ## The sync engine (event consumer loop of `StartShell`) -/

/-- A `notify.EventInfo` as consumed by the loop at `client.go` 148-166. -/
inductive NotifyEvent
  | create (path : List Char)
  | remove (path : List Char)
  | write (path : List Char)
  | rename (path : List Char)
deriving DecidableEq

/-- The remote filesystem, as file contents per absolute remote path. -/
def RemoteFS : Type := List Char → Option (List Char)

/-- Environment of one engine run: the local filesystem (`none` = `os.Open`
fails) and the exit statuses the remote returns for the `mkdir -p` and
`scp -qt` sessions targeting a given remote path. -/
structure SyncEnv where
  localFS : List Char → Option (List Char)
  mkdirStatus : List Char → Nat
  scpStatus : List Char → Nat

/-- Outcome of one handler call: the remote filesystem, the lines printed,
and the returned error (if any). -/
structure StepResult where
  fs : RemoteFS
  output : List (List Char)
  err : Option (List Char)

/-- Embeds `syncFiles` (`client.go` 233-246): open the local file (failure returns
the open error before anything is printed), print the `Sync file` line, run
`ensureRemoteDirectory` (a `mkdir -p` session, `client.go` 186-195), then
push via `copyFromFile`; a non-zero exit of either session is returned as
its `ssh.ExitError` and the remote file is unchanged, otherwise the remote
path now holds the local content. -/
def syncFiles (env : SyncEnv) (fs : RemoteFS) (loc rem : List Char) :
    StepResult :=
  match env.localFS loc with
  | none =>
    ⟨fs, [], some (("open ").data ++ loc ++ (": no such file or directory").data)⟩
  | some content =>
    let out := [("Sync file: ").data ++ loc ++ (" --> ").data ++ rem]
    if env.mkdirStatus rem ≠ 0 then
      ⟨fs, out, some (exitErrBytes (env.mkdirStatus rem))⟩
    else if env.scpStatus rem ≠ 0 then
      ⟨fs, out, some (exitErrBytes (env.scpStatus rem))⟩
    else
      ⟨fun q => if q = rem then some content else fs q, out, none⟩

/-- Embeds `remoteUpdateFile` (`client.go` 250-258). -/
def remoteUpdateFile (env : SyncEnv) (ldAbs rd : List Char) (fs : RemoteFS)
    (p : List Char) : StepResult :=
  syncFiles env fs p (remoteUpdateFilePath ldAbs rd p)

/-- Embeds `remoteCreateFile` (`client.go` 263-265), which delegates to `remoteUpdateFile`. -/
def remoteCreateFile (env : SyncEnv) (ldAbs rd : List Char) (fs : RemoteFS)
    (p : List Char) : StepResult :=
  remoteUpdateFile env ldAbs rd fs p

/-- Embeds `remoteRemoveFile` (`client.go` 172-174): it returns
`fmt.Errorf("remoteRemoveFile not implemented")` and performs no remote
action. -/
def remoteRemoveFile (fs : RemoteFS) (p : List Char) : StepResult :=
  ⟨fs, [], some ("remoteRemoveFile not implemented").data⟩

/-- Embeds `remoteRenameFile` (`client.go` 178-180): it returns
`fmt.Errorf("remoteRenameFile not implemented")` and performs no remote
action. -/
def remoteRenameFile (fs : RemoteFS) (p : List Char) : StepResult :=
  ⟨fs, [], some ("remoteRenameFile not implemented").data⟩

/-- One iteration of the event loop (`client.go` 148-166): print the event
trace line, dispatch to the handler. -/
def stepEvent (env : SyncEnv) (ldAbs rd : List Char) (fs : RemoteFS) :
    NotifyEvent → StepResult
  | .create p =>
    let r := remoteCreateFile env ldAbs rd fs p
    ⟨r.fs, (("create :: ").data ++ p) :: r.output, r.err⟩
  | .remove p =>
    let r := remoteRemoveFile fs p
    ⟨r.fs, (("remove :: ").data ++ p) :: r.output, r.err⟩
  | .write p =>
    let r := remoteUpdateFile env ldAbs rd fs p
    ⟨r.fs, (("write  :: ").data ++ p) :: r.output, r.err⟩
  | .rename p =>
    let r := remoteRenameFile fs p
    ⟨r.fs, (("rename :: ").data ++ p) :: r.output, r.err⟩

/-- The steady-state loop `for evt := range c.events` (`client.go` 148-166):
every handler return value is discarded, so the loop consumes every event
regardless of failures. -/
def runEvents (env : SyncEnv) (ldAbs rd : List Char) (fs : RemoteFS) :
    List NotifyEvent → RemoteFS × List (List Char)
  | [] => (fs, [])
  | e :: es =>
    let r := stepEvent env ldAbs rd fs e
    let rest := runEvents env ldAbs rd r.fs es
    (rest.1, r.output ++ rest.2)

/-! ## Phase 1 initial walk -/

/-- One entry reported by `filepath.Walk`, in walk order. -/
structure WalkEntry where
  path : List Char
  isDir : Bool
deriving DecidableEq

/-- The walk callback of `StartShell` (`client.go` 121-131): an entry is
appended to `files` unless its whole walk path starts with `"."`; the
`os.FileInfo` is never consulted, so directories are collected too.  Every
collected path is then passed to `syncFiles` (`client.go` 134-145). -/
def walkCollect (entries : List WalkEntry) : List (List Char) :=
  (entries.filter (fun e => !(['.'].isPrefixOf e.path))).map (fun e => e.path)

/-! ## Close -/

/-- The live resources of a `Client`: the `events` channel, the embedded
`*ssh.Client` transport connection, and the `notify` watch. -/
structure ClientState where
  eventsOpen : Bool
  connOpen : Bool
  watchActive : Bool
deriving DecidableEq

/-- Embeds `Close` (`client.go` 277-279): it executes `close(c.events)` and nothing
else.  Closing an already-closed Go channel is a runtime panic (`none`). -/
def closeClient (st : ClientState) : Option ClientState :=
  if st.eventsOpen then some { st with eventsOpen := false } else none

/-! ## StartShell action order -/

/-- The externally visible actions of `StartShell` (`client.go` 67-167), in
program order. -/
inductive ShellAction
  | subscribeDir (dir : List Char)
  | openSession
  | plumbPipes
  | requestPty
  | startShell
  | walkLocal (dir : List Char)
  | syncFile (loc rem : List Char)
  | consumeEvents
deriving DecidableEq

/-- The action trace of `StartShell`: `SubscribeDir(path.Join(localDir,
"..."))` first (`client.go` 69-73), then the session setup steps (each of
which may fail and return early, modelled by the Booleans), then the Phase 1
walk and per-file syncs, then the event-consumer loop. -/
def startShellTrace (localDir : List Char)
    (files : List (List Char × List Char))
    (sessionOk pipesOk ptyOk shellOk : Bool) : List ShellAction :=
  ShellAction.subscribeDir (filepathJoin2 localDir ("...").data) ::
    (if sessionOk then
      ShellAction.openSession ::
        (if pipesOk then
          ShellAction.plumbPipes ::
            (if ptyOk then
              ShellAction.requestPty ::
                (if shellOk then
                  ShellAction.startShell :: ShellAction.walkLocal localDir ::
                    (files.map (fun pr => ShellAction.syncFile pr.1 pr.2) ++
                      [ShellAction.consumeEvents])
                else [])
            else [])
        else [])
    else [])

/-! ## Address parsing -/

/-- The parsed `user[:password]@host[:port][:remotePath]` address;
`dest = none` means the remote path was absent (it then defaults to the
user's home or a configured default). -/
structure SSHAddr where
  user : List Char
  pass : List Char
  host : List Char
  port : Nat
  dest : Option (List Char)
deriving DecidableEq

/-- Embeds `strconv.Atoi` restricted to the unsigned decimal numerals used for
ports. -/
def natFromDigits (cs : List Char) : Option Nat :=
  if cs = [] then none
  else
    cs.foldl
      (fun acc c =>
        acc.bind (fun a => if c.isDigit then some (a * 10 + (c.toNat - 48)) else none))
      (some 0)

/-- Modelled from the spec: the user field of the credentials fragment —
everything before the first `:`. -/
def sshaddrUser (creds : List Char) : List Char :=
  (splitChar ':' creds).headD []

/-- Modelled from the spec: the password field — everything after the first
`:` of the credentials fragment, rejoined (it may itself contain `:`). -/
def sshaddrPass (creds : List Char) : List Char :=
  intercalateChar ':' (splitChar ':' creds).tail

/-- Modelled from the spec: dispatch on the `:`-separated parts of the host
fragment: `host`, `host:port`, or `host:port:remotePath`; the port defaults
to 22 when absent, a non-numeric port or a part count over three is a parse
error quoting the offending fragment. -/
def sshaddrHost (creds : List Char) :
    List (List Char) → Except (List Char) SSHAddr
  | [h] => .ok ⟨sshaddrUser creds, sshaddrPass creds, h, 22, none⟩
  | [h, p] =>
    match natFromDigits p with
    | some n => .ok ⟨sshaddrUser creds, sshaddrPass creds, h, n, none⟩
    | none => .error (("invalid port (").data ++ p ++ (")").data)
  | [h, p, d] =>
    match natFromDigits p with
    | some n => .ok ⟨sshaddrUser creds, sshaddrPass creds, h, n, some d⟩
    | none => .error (("invalid port (").data ++ p ++ (")").data)
  | parts =>
    .error (("invalid host address (").data
      ++ intercalateChar ':' parts ++ (")").data)

/-- Modelled from the spec: `sshaddr.Parse` of the external package
`github.com/sabhiram/sshaddr` (called at `client.go` 32 but not under
`src/`).  Spec section 6: the address string is
`user[:password]@host[:port][:remotePath]`; the port defaults to 22 if
absent; malformed strings (wrong number of `@`-separated parts, non-numeric
port) fail with a parse error identifying the offending fragment.  The
split structure follows the in-repo ancestor `ParseSSHAddr`
(`src/unnamed/part_000` 33-70), extended with the remote-path field that
`client.go` reads via `ssha.Destination()`. -/
def sshaddrParse (s : List Char) : Except (List Char) SSHAddr :=
  match splitChar '@' s with
  | [creds, hostpart] => sshaddrHost creds (splitChar ':' hostpart)
  | _ => .error (("malformed SSH address string (").data ++ s ++ (")").data)

/-! ## Concrete test fixtures -/

/-- A remote filesystem with no files. -/
def emptyRemote : RemoteFS := fun _ => none

/-- Environment with one local file `/root/a.txt` and every remote session
succeeding. -/
def envA : SyncEnv :=
  ⟨fun p => if p = ("/root/a.txt").data then some ("hello").data else none,
   fun _ => 0, fun _ => 0⟩

/-- Environment with local files `b.txt` and `c.txt` where the push of
`b.txt` fails with remote exit status 1 and everything else succeeds. -/
def envB : SyncEnv :=
  ⟨fun p =>
    if p = ("/root/b.txt").data then some ("bb").data
    else if p = ("/root/c.txt").data then some ("cc").data
    else none,
   fun _ => 0,
   fun r => if r = ("/tmp/r/b.txt").data then 1 else 0⟩

/-- The entries `filepath.Walk` reports, in walk order, for the local tree
`{a.txt, .hidden/x, sub/b.txt}` when `localDir` is the relative `"."`. -/
def entriesRel : List WalkEntry :=
  [⟨(".").data, true⟩, ⟨(".hidden").data, true⟩, ⟨(".hidden/x").data, false⟩,
   ⟨("a.txt").data, false⟩, ⟨("sub").data, true⟩, ⟨("sub/b.txt").data, false⟩]

/-- The same local tree rooted at the absolute `"/root"`. -/
def entriesAbs : List WalkEntry :=
  [⟨("/root").data, true⟩, ⟨("/root/.hidden").data, true⟩,
   ⟨("/root/.hidden/x").data, false⟩, ⟨("/root/a.txt").data, false⟩,
   ⟨("/root/sub").data, true⟩, ⟨("/root/sub/b.txt").data, false⟩]

/-! ## Lemmas on splitting and joining -/

theorem splitChar_ne_nil (sep : Char) (s : List Char) : splitChar sep s ≠ [] := by
  cases s with
  | nil => simp [splitChar]
  | cons c rest =>
    by_cases h : c = sep
    · simp [splitChar, h]
    · simp only [splitChar, if_neg h]
      cases splitChar sep rest with
      | nil => simp
      | cons comp comps => simp

theorem splitChar_sep_cons (sep : Char) (rest : List Char) :
    splitChar sep (sep :: rest) = [] :: splitChar sep rest := by
  simp [splitChar]

theorem splitChar_cons_of_ne (sep c : Char) (rest comp : List Char)
    (comps : List (List Char)) (hc : c ≠ sep)
    (hrest : splitChar sep rest = comp :: comps) :
    splitChar sep (c :: rest) = (c :: comp) :: comps := by
  simp [splitChar, hc, hrest]

/-- Splitting a concatenation around an explicit separator splits each side. -/
theorem splitChar_append (sep : Char) (a b : List Char) :
    splitChar sep (a ++ sep :: b) = splitChar sep a ++ splitChar sep b := by
  induction a with
  | nil => simp [splitChar_sep_cons, splitChar]
  | cons c a ih =>
    by_cases hc : c = sep
    · subst hc
      simp only [List.cons_append, splitChar_sep_cons, ih, List.cons_append]
    · obtain ⟨comp, comps, hs⟩ :
          ∃ comp comps, splitChar sep a = comp :: comps := by
        cases h : splitChar sep a with
        | nil => exact absurd h (splitChar_ne_nil sep a)
        | cons x xs => exact ⟨x, xs, rfl⟩
      have h2 : splitChar sep (a ++ sep :: b) = (comp :: comps) ++ splitChar sep b := by
        rw [ih, hs]
      rw [List.cons_append,
        splitChar_cons_of_ne sep c (a ++ sep :: b) comp (comps ++ splitChar sep b) hc h2,
        splitChar_cons_of_ne sep c a comp comps hc hs]
      simp

/-- A chunk without the separator splits to itself. -/
theorem splitChar_eq_single (sep : Char) (s : List Char) (h : sep ∉ s) :
    splitChar sep s = [s] := by
  induction s with
  | nil => simp [splitChar]
  | cons c rest ih =>
    have hc : c ≠ sep := fun he => h (he ▸ List.mem_cons_self c rest)
    have hrest : splitChar sep rest = [rest] := ih (fun hm => h (List.mem_cons_of_mem c hm))
    simp [splitChar, hc, hrest]

/-- No component produced by `splitChar` contains the separator. -/
theorem not_mem_of_mem_splitChar (sep : Char) (s x : List Char)
    (hx : x ∈ splitChar sep s) : sep ∉ x := by
  induction s generalizing x with
  | nil =>
    simp [splitChar] at hx
    simp [hx]
  | cons c rest ih =>
    by_cases hc : c = sep
    · subst hc
      rw [splitChar_sep_cons] at hx
      rcases List.mem_cons.mp hx with h | h
      · simp [h]
      · exact ih x h
    · obtain ⟨comp, comps, hs⟩ :
          ∃ comp comps, splitChar sep rest = comp :: comps := by
        cases h : splitChar sep rest with
        | nil => exact absurd h (splitChar_ne_nil sep rest)
        | cons y ys => exact ⟨y, ys, rfl⟩
      rw [splitChar_cons_of_ne sep c rest comp comps hc hs] at hx
      rcases List.mem_cons.mp hx with h | h
      · subst h
        intro hmem
        rcases List.mem_cons.mp hmem with h' | h'
        · exact hc h'.symm
        · exact ih comp (hs ▸ List.mem_cons_self comp comps) h'
      · exact ih x (hs ▸ List.mem_cons_of_mem comp h)

/-- Round trip: `strings.Join (strings.Split s sep) sep = s`. -/
theorem intercalateChar_splitChar (sep : Char) (s : List Char) :
    intercalateChar sep (splitChar sep s) = s := by
  induction s with
  | nil => simp [splitChar, intercalateChar]
  | cons c rest ih =>
    by_cases hc : c = sep
    · subst hc
      rw [splitChar_sep_cons]
      obtain ⟨comp, comps, hs⟩ :
          ∃ comp comps, splitChar c rest = comp :: comps := by
        cases h : splitChar c rest with
        | nil => exact absurd h (splitChar_ne_nil c rest)
        | cons y ys => exact ⟨y, ys, rfl⟩
      rw [hs] at ih ⊢
      rw [intercalateChar]
      simp [ih]
    · obtain ⟨comp, comps, hs⟩ :
          ∃ comp comps, splitChar sep rest = comp :: comps := by
        cases h : splitChar sep rest with
        | nil => exact absurd h (splitChar_ne_nil sep rest)
        | cons y ys => exact ⟨y, ys, rfl⟩
      rw [splitChar_cons_of_ne sep c rest comp comps hc hs]
      rw [hs] at ih
      cases comps with
      | nil =>
        rw [intercalateChar] at ih ⊢
        simp [ih]
      | cons d ds =>
        rw [intercalateChar] at ih ⊢
        rw [List.cons_append, ih]

/-- Splitting a join of separator-free components recovers the components. -/
theorem splitChar_intercalateChar (sep : Char) (cs : List (List Char))
    (hne : cs ≠ []) (hfree : ∀ c ∈ cs, sep ∉ c) :
    splitChar sep (intercalateChar sep cs) = cs := by
  induction cs with
  | nil => exact absurd rfl hne
  | cons c cs ih =>
    cases cs with
    | nil =>
      rw [intercalateChar]
      exact splitChar_eq_single sep c (hfree c (List.mem_cons_self c []))
    | cons d ds =>
      rw [intercalateChar, splitChar_append,
        splitChar_eq_single sep c (hfree c (List.mem_cons_self c (d :: ds))),
        ih (by simp) (fun x hx => hfree x (List.mem_cons_of_mem c hx))]
      simp

theorem intercalateChar_append (sep : Char) (rs cs : List (List Char))
    (hrs : rs ≠ []) (hcs : cs ≠ []) :
    intercalateChar sep (rs ++ cs) =
      intercalateChar sep rs ++ sep :: intercalateChar sep cs := by
  induction rs with
  | nil => exact absurd rfl hrs
  | cons r rs ih =>
    cases rs with
    | nil =>
      cases cs with
      | nil => exact absurd rfl hcs
      | cons d ds => simp [intercalateChar]
    | cons r2 rs2 =>
      have h2 := ih (by simp)
      simp only [List.cons_append] at h2 ⊢
      rw [intercalateChar, intercalateChar, h2]
      simp

/-! ## Lemmas on the path helpers -/

theorem cleanStep_plain (rooted : Bool) (stack : List (List Char))
    (c : List Char) (hc : PlainComp c) :
    cleanStep rooted stack c = c :: stack := by
  obtain ⟨h1, h2, h3, _⟩ := hc
  simp [cleanStep, h1, h2, h3]

theorem cleanStep_nil (rooted : Bool) (stack : List (List Char)) :
    cleanStep rooted stack [] = stack := by
  simp [cleanStep]

/-- Folding `cleanStep` over plain components pushes them all. -/
theorem foldl_cleanStep_plain (rooted : Bool) (cs : List (List Char))
    (hcs : ∀ c ∈ cs, PlainComp c) (stack : List (List Char)) :
    cs.foldl (cleanStep rooted) stack = cs.reverse ++ stack := by
  induction cs generalizing stack with
  | nil => simp
  | cons c cs ih =>
    rw [List.foldl_cons, cleanStep_plain rooted stack c (hcs c (List.mem_cons_self c cs)),
      ih (fun x hx => hcs x (List.mem_cons_of_mem c hx))]
    simp

theorem pathBase_no_slash (p : List Char) (hp : p ≠ [])
    (hlast : p.getLastD '/' ≠ '/') : '/' ∉ pathBase p := by
  have ht : (p.reverse.dropWhile (fun c => c = '/')).reverse = p := by
    cases hq : p.reverse with
    | nil =>
      exact absurd (by simpa using congrArg List.reverse hq) hp
    | cons q qs =>
      have hql : p.getLastD '/' = q := by
        rw [List.getLastD_eq_getLast?, ← List.head?_reverse, hq]
        rfl
      have hqne : ¬ (q = '/') := fun he => hlast (hql.trans he)
      rw [List.dropWhile_cons, if_neg (by simpa using hqne), ← hq,
        List.reverse_reverse]
  rw [pathBase, if_neg hp]
  simp only [ht, if_neg hp]
  intro hmem
  have hmem' : (splitChar '/' p).getLastD [] ∈ splitChar '/' p := by
    cases hq : splitChar '/' p with
    | nil => exact absurd hq (splitChar_ne_nil '/' p)
    | cons x xs =>
      rw [List.getLastD_cons]
      exact List.getLastD_mem_cons ..
  exact not_mem_of_mem_splitChar '/' p _ hmem' hmem

theorem filepathCleanCore_rooted_plain (rs cs : List (List Char))
    (hrsp : ∀ c ∈ rs, PlainComp c) (hcsp : ∀ c ∈ cs, PlainComp c) :
    filepathCleanCore true (([] :: rs) ++ ([] :: cs)) =
      '/' :: intercalateChar '/' (rs ++ cs) := by
  rw [filepathCleanCore, if_pos rfl]
  congr 2
  have h1 : List.foldl (cleanStep true) ([] : List (List Char)) ([] :: rs)
      = rs.reverse := by
    rw [List.foldl_cons, cleanStep_nil, foldl_cleanStep_plain true rs hrsp []]
    simp
  have h2 : List.foldl (cleanStep true) rs.reverse ([] :: cs)
      = cs.reverse ++ rs.reverse := by
    rw [List.foldl_cons, cleanStep_nil, foldl_cleanStep_plain true cs hcsp _]
  rw [List.foldl_append, h1, h2]
  simp

/-! ## Claim theorems -/

/-- C6: for every local path `L = localDirAbs ++ "/" ++ rel` whose relative
part consists of plain components, and every rooted clean `remoteDir`, the
remote path computed by `remoteUpdateFile` equals
`remoteDir ++ "/" ++ rel`, i.e. `remoteRoot + relative(L, localRoot)`.  The
computation is purely lexical (`TrimPrefix` + `Join`) and, being a function
of `(localDirAbs, remoteDir, L)` alone, deterministic across unrelated
syncs. -/
theorem remoteUpdateFile_path_eq (ld : List Char) (rs cs : List (List Char))
    (hrs : rs ≠ []) (hcs : cs ≠ [])
    (hrsp : ∀ c ∈ rs, PlainComp c) (hcsp : ∀ c ∈ cs, PlainComp c) :
    remoteUpdateFilePath ld ('/' :: intercalateChar '/' rs)
        (ld ++ '/' :: intercalateChar '/' cs)
      = ('/' :: intercalateChar '/' rs) ++ '/' :: intercalateChar '/' cs := by
  have hsplitA : splitChar '/' (intercalateChar '/' rs) = rs :=
    splitChar_intercalateChar '/' rs hrs (fun c hc => (hrsp c hc).2.2.2)
  have hsplitB : splitChar '/' (intercalateChar '/' cs) = cs :=
    splitChar_intercalateChar '/' cs hcs (fun c hc => (hcsp c hc).2.2.2)
  have htrim : trimPrefixOf (ld ++ '/' :: intercalateChar '/' cs) ld
      = '/' :: intercalateChar '/' cs := by
    rw [trimPrefixOf, if_pos ⟨_, rfl⟩, List.drop_left]
  rw [remoteUpdateFilePath, htrim, filepathJoin2, if_pos (by simp)]
  have hsplit :
      splitChar '/' (('/' :: intercalateChar '/' rs) ++ '/' :: ('/' :: intercalateChar '/' cs))
        = ([] :: rs) ++ ([] :: cs) := by
    rw [splitChar_append, splitChar_sep_cons, splitChar_sep_cons, hsplitA, hsplitB]
  rw [filepathClean, if_neg (by simp)]
  have hhead :
      ((('/' :: intercalateChar '/' rs) ++ '/' :: ('/' :: intercalateChar '/' cs)).headD ' ' == '/')
        = true := by
    simp
  rw [hhead, hsplit, filepathCleanCore_rooted_plain rs cs hrsp hcsp,
    intercalateChar_append '/' rs cs hrs hcs]
  simp

/-- Witness for C6 at `localDir = /home/u/work`, `remoteDir = /tmp/r`,
`L = /home/u/work/sub/a.txt`. -/
theorem remoteUpdateFile_path_eq_witness :
    remoteUpdateFilePath ("/home/u/work").data
        ('/' :: intercalateChar '/' [("tmp").data, ("r").data])
        (("/home/u/work").data ++ '/'
          :: intercalateChar '/' [("sub").data, ("a.txt").data])
      = ('/' :: intercalateChar '/' [("tmp").data, ("r").data]) ++ '/'
          :: intercalateChar '/' [("sub").data, ("a.txt").data] :=
  remoteUpdateFile_path_eq ("/home/u/work").data
    [("tmp").data, ("r").data] [("sub").data, ("a.txt").data]
    (by decide) (by decide) (by decide) (by decide)

/-- C1: evaluating the steady-state loop at the claimed failing input.  After
`[Write(a), Write(a), Remove(a)]` the remote file is STILL PRESENT: the
Remove branch calls `remoteRemoveFile`, which only returns
`"remoteRemoveFile not implemented"` and issues no remote delete; likewise
the Rename branch performs no remote action.  The claim's mapped-action
behavior for Remove and Rename is not implemented by the code. -/
theorem remove_and_rename_events_do_nothing :
    (runEvents envA ("/root").data ("/tmp/r").data emptyRemote
        [NotifyEvent.write ("/root/a.txt").data,
         NotifyEvent.write ("/root/a.txt").data,
         NotifyEvent.remove ("/root/a.txt").data]).1 ("/tmp/r/a.txt").data
      = some ("hello").data
    ∧ (stepEvent envA ("/root").data ("/tmp/r").data emptyRemote
        (NotifyEvent.remove ("/root/a.txt").data)).err
      = some ("remoteRemoveFile not implemented").data
    ∧ (stepEvent envA ("/root").data ("/tmp/r").data emptyRemote
        (NotifyEvent.rename ("/root/a.txt").data)).err
      = some ("remoteRenameFile not implemented").data := by
  refine ⟨?_, ?_, ?_⟩ <;> decide

/-- C3: evaluating the Phase 1 walk filter at the claimed tree
`{a.txt, .hidden/x, sub/b.txt}`.  With the relative root `"."` the files
slice handed to `syncFiles` contains the DIRECTORY `sub` (the callback never
consults `f.IsDir()`), and with an absolute root `/root` nothing at all is
filtered — the root itself, both hidden entries and both directories are
all collected and pushed, because the filter tests
`strings.HasPrefix(path, ".")` on the whole walk path, not on the base
name. -/
theorem walkCollect_keeps_dirs_and_hidden :
    walkCollect entriesRel
      = [("a.txt").data, ("sub").data, ("sub/b.txt").data]
    ∧ walkCollect entriesAbs
      = [("/root").data, ("/root/.hidden").data, ("/root/.hidden/x").data,
         ("/root/a.txt").data, ("/root/sub").data, ("/root/sub/b.txt").data] := by
  refine ⟨?_, ?_⟩ <;> decide

/-- C10: `copyFromFile` discards the `Stat` error; when `Stat` fails the
`FileInfo` is nil and `stat.Size()` is a nil-dereference runtime panic
(`none`), so the function is not total at its interface.  When `Stat`
succeeds the push uses exactly the returned size. -/
theorem copyFromFileRun_panics_on_failed_stat :
    (∀ content remotePath perms rr,
      copyFromFileRun none content remotePath perms rr = none)
    ∧ ∀ sz content remotePath perms rr,
      copyFromFileRun (some sz) content remotePath perms rr
        = some (copyResult remotePath perms sz content rr) :=
  ⟨fun _ _ _ _ => rfl, fun _ _ _ _ _ => rfl⟩

/-- C2 counterexample: the engine's pushes (through `syncFiles`) always pass
the permission string `"0755"` (`client.go` 245), so the header the claim
describes is `C0755 3 a.txt\n` — its permission field BEGINS WITH `'0'`: the
byte right after `'C'` in the stream is `'0'`, contradicting "P an octal
string without leading 0". -/
theorem syncFilesBytes_perms_leading_zero :
    syncFilesBytes ("abc").data ("/tmp/r/a.txt").data
      = ("C0755 3 a.txt\n").data ++ ("abc").data ++ ['\x00']
    ∧ (syncFilesBytes ("abc").data ("/tmp/r/a.txt").data)[1]? = some '0' := by
  refine ⟨?_, ?_⟩ <;> decide

/-- C2 (amended): for every push through `copyFromFile` of content `B` to a
destination that is not empty and does not end in `'/'`, the stdin stream is
exactly the header line `C ++ P ++ " " ++ decimal(|B|) ++ " " ++ F ++ "\n"`
— with `P` written verbatim as supplied (the engine supplies `"0755"`,
which has a leading `0`) and `F = path.Base(destination)` containing no path
separator — followed by the `|B|` content bytes and exactly one NUL
terminator. -/
theorem copyFromFileBytes_layout (content remotePath perms : List Char)
    (h1 : remotePath ≠ []) (h2 : remotePath.getLastD '/' ≠ '/') :
    copyFromFileBytes content remotePath perms
      = 'C' :: (perms ++ ' ' :: (toString content.length).data ++ ' '
          :: (pathBase remotePath ++ '\n' :: (content ++ ['\x00'])))
    ∧ '/' ∉ pathBase remotePath := by
  constructor
  · rw [copyFromFileBytes, copyStdinBytes, scpHeader]
    simp
  · exact pathBase_no_slash remotePath h1 h2

/-- Witness for the amended C2 at content `"abc"`, destination
`/tmp/r/a.txt`, permissions `"0755"`. -/
theorem copyFromFileBytes_layout_witness :
    copyFromFileBytes ("abc").data ("/tmp/r/a.txt").data ("0755").data
      = 'C' :: (("0755").data ++ ' ' :: (toString (("abc").data).length).data ++ ' '
          :: (pathBase ("/tmp/r/a.txt").data ++ '\n' :: (("abc").data ++ ['\x00'])))
    ∧ '/' ∉ pathBase ("/tmp/r/a.txt").data :=
  copyFromFileBytes_layout ("abc").data ("/tmp/r/a.txt").data ("0755").data
    (by decide) (by decide)

/-- C4 counterexample: a run in which the push of `b.txt` fails with remote
exit status 1.  The handler returns the error, but the loop discards it: the
printed output consists of the event-trace and `Sync file` lines only, and
NO printed line contains the failure's cause — the claim's "every such
recoverable failure is reported with … the underlying cause" is false.  (The
subsequent `Write(c.txt)` is still synced.) -/
theorem runEvents_failure_not_reported :
    (stepEvent envB ("/root").data ("/tmp/r").data emptyRemote
        (NotifyEvent.write ("/root/b.txt").data)).err = some (exitErrBytes 1)
    ∧ (runEvents envB ("/root").data ("/tmp/r").data emptyRemote
        [NotifyEvent.write ("/root/b.txt").data,
         NotifyEvent.write ("/root/c.txt").data]).2
      = [("write  :: /root/b.txt").data,
         ("Sync file: /root/b.txt --> /tmp/r/b.txt").data,
         ("write  :: /root/c.txt").data,
         ("Sync file: /root/c.txt --> /tmp/r/c.txt").data]
    ∧ (∀ l ∈ (runEvents envB ("/root").data ("/tmp/r").data emptyRemote
        [NotifyEvent.write ("/root/b.txt").data,
         NotifyEvent.write ("/root/c.txt").data]).2,
        ¬ (exitErrBytes 1 <:+: l))
    ∧ (runEvents envB ("/root").data ("/tmp/r").data emptyRemote
        [NotifyEvent.write ("/root/b.txt").data,
         NotifyEvent.write ("/root/c.txt").data]).1 ("/tmp/r/c.txt").data
      = some ("cc").data := by
  refine ⟨?_, ?_, ?_, ?_⟩ <;> decide

/-- C4 (amended): a failure while syncing one file never terminates the
event-consumer loop.  If the push of `b` fails, its step errors but leaves
the remote filesystem unchanged, the loop continues with the remaining
events unconditionally (the handler's return value is discarded), and a
subsequent `Write(c)` whose own chain succeeds is synced; the failure
itself, however, is not reported with its cause. -/
theorem runEvents_fault_isolation (env : SyncEnv) (ldAbs rd : List Char)
    (fs : RemoteFS) (b c cc : List Char)
    (hb : env.scpStatus (remoteUpdateFilePath ldAbs rd b) ≠ 0)
    (hc1 : env.localFS c = some cc)
    (hc2 : env.mkdirStatus (remoteUpdateFilePath ldAbs rd c) = 0)
    (hc3 : env.scpStatus (remoteUpdateFilePath ldAbs rd c) = 0) :
    (stepEvent env ldAbs rd fs (NotifyEvent.write b)).err.isSome = true
    ∧ (stepEvent env ldAbs rd fs (NotifyEvent.write b)).fs = fs
    ∧ (∀ es, runEvents env ldAbs rd fs (NotifyEvent.write b :: es)
        = ((runEvents env ldAbs rd
              (stepEvent env ldAbs rd fs (NotifyEvent.write b)).fs es).1,
           (stepEvent env ldAbs rd fs (NotifyEvent.write b)).output
             ++ (runEvents env ldAbs rd
                  (stepEvent env ldAbs rd fs (NotifyEvent.write b)).fs es).2))
    ∧ (runEvents env ldAbs rd fs
        [NotifyEvent.write b, NotifyEvent.write c]).1
        (remoteUpdateFilePath ldAbs rd c) = some cc := by
  have hstep : (stepEvent env ldAbs rd fs (NotifyEvent.write b)).err.isSome = true
      ∧ (stepEvent env ldAbs rd fs (NotifyEvent.write b)).fs = fs := by
    simp only [stepEvent, remoteUpdateFile, syncFiles]
    cases hob : env.localFS b with
    | none => simp
    | some bc =>
      by_cases hm : env.mkdirStatus (remoteUpdateFilePath ldAbs rd b) = 0
      · simp [hm, hb]
      · simp [hm]
  refine ⟨hstep.1, hstep.2, fun es => rfl, ?_⟩
  show (runEvents env ldAbs rd
      (stepEvent env ldAbs rd fs (NotifyEvent.write b)).fs
      [NotifyEvent.write c]).1 (remoteUpdateFilePath ldAbs rd c) = some cc
  rw [hstep.2]
  show (stepEvent env ldAbs rd fs (NotifyEvent.write c)).fs
      (remoteUpdateFilePath ldAbs rd c) = some cc
  simp [stepEvent, remoteUpdateFile, syncFiles, hc1, hc2, hc3]

/-- Witness for the amended C4 in the concrete environment `envB`. -/
theorem runEvents_fault_isolation_witness :
    (stepEvent envB ("/root").data ("/tmp/r").data emptyRemote
        (NotifyEvent.write ("/root/b.txt").data)).err.isSome = true
    ∧ (stepEvent envB ("/root").data ("/tmp/r").data emptyRemote
        (NotifyEvent.write ("/root/b.txt").data)).fs = emptyRemote
    ∧ (∀ es, runEvents envB ("/root").data ("/tmp/r").data emptyRemote
        (NotifyEvent.write ("/root/b.txt").data :: es)
        = ((runEvents envB ("/root").data ("/tmp/r").data
              (stepEvent envB ("/root").data ("/tmp/r").data emptyRemote
                (NotifyEvent.write ("/root/b.txt").data)).fs es).1,
           (stepEvent envB ("/root").data ("/tmp/r").data emptyRemote
              (NotifyEvent.write ("/root/b.txt").data)).output
             ++ (runEvents envB ("/root").data ("/tmp/r").data
                  (stepEvent envB ("/root").data ("/tmp/r").data emptyRemote
                    (NotifyEvent.write ("/root/b.txt").data)).fs es).2))
    ∧ (runEvents envB ("/root").data ("/tmp/r").data emptyRemote
        [NotifyEvent.write ("/root/b.txt").data,
         NotifyEvent.write ("/root/c.txt").data]).1
        (remoteUpdateFilePath ("/root").data ("/tmp/r").data ("/root/c.txt").data)
      = some ("cc").data :=
  runEvents_fault_isolation envB ("/root").data ("/tmp/r").data emptyRemote
    ("/root/b.txt").data ("/root/c.txt").data ("cc").data
    (by decide) (by decide) (by decide) (by decide)

/-- C5 counterexample: a push to `/tmp/r/a.txt` whose remote receiver exits
with status 1 makes `copy` return the bare `ssh.ExitError` — a non-nil
error, but one that names only the exit status: the destination path is not
contained in it, and there is no `TransferError` type in the code. -/
theorem copyResult_error_lacks_path :
    copyResult ("/tmp/r/a.txt").data ("0755").data 3 ("abc").data
        (RunResult.exitErr 1)
      = some (exitErrBytes 1)
    ∧ ¬ (("/tmp/r/a.txt").data <:+: exitErrBytes 1) := by
  refine ⟨?_, ?_⟩ <;> decide

/-- C5 (amended): `copy` returns exactly the session's result — a non-zero
remote exit status yields a non-nil error rather than success or a hang,
while exit status 0 yields success even if the declared size differs from
the bytes streamed; the returned error is independent of the destination
path, permissions, declared size and content (so it cannot name the
destination); and the write side streams every source byte after the header
regardless of the declared size — no header/body consistency check is
performed by the encoder. -/
theorem copyResult_amended (dst perms src : List Char) (sz s : Nat) :
    copyResult dst perms sz src (RunResult.exitErr (s + 1))
      = some (exitErrBytes (s + 1))
    ∧ copyResult dst perms sz src RunResult.ok = none
    ∧ (∀ dst' perms' sz' src' rr,
        copyResult dst perms sz src rr = copyResult dst' perms' sz' src' rr)
    ∧ (copyStdinBytes dst perms sz src).drop
        (scpHeader perms sz (pathBase dst)).length = src ++ ['\x00'] := by
  refine ⟨rfl, rfl, fun _ _ _ _ rr => rfl, ?_⟩
  rw [copyStdinBytes, List.append_assoc, List.drop_left]

/-- C7 counterexample: on a freshly connected client (events channel open,
transport connected, watch active) the first `Close` merely closes the
events channel — the transport connection and the watcher stay live — and a
second `Close` is a runtime panic (`close` of a closed Go channel), not a
no-op success. -/
theorem closeClient_not_idempotent :
    (closeClient ⟨true, true, true⟩).bind closeClient = none
    ∧ closeClient ⟨true, true, true⟩ = some ⟨false, true, true⟩ := by
  refine ⟨?_, ?_⟩ <;> decide

/-- C7 (amended): `Close` closes exactly the events channel: on any client
whose events channel is open it succeeds, flips only `eventsOpen`, releases
neither the transport connection nor the watcher, and a second `Close`
panics. -/
theorem closeClient_amended (st : ClientState) (h : st.eventsOpen = true) :
    closeClient st = some { st with eventsOpen := false }
    ∧ (∀ st', closeClient st = some st' →
        st'.connOpen = st.connOpen ∧ st'.watchActive = st.watchActive)
    ∧ (closeClient st).bind closeClient = none := by
  refine ⟨by simp [closeClient, h], ?_, by simp [closeClient, h]⟩
  intro st' hst
  rw [closeClient, if_pos h] at hst
  cases hst
  exact ⟨rfl, rfl⟩

/-- Witness for the amended C7 on the fully live client. -/
theorem closeClient_amended_witness :
    closeClient ⟨true, true, true⟩
      = some { (⟨true, true, true⟩ : ClientState) with eventsOpen := false }
    ∧ (∀ st', closeClient ⟨true, true, true⟩ = some st' →
        st'.connOpen = (⟨true, true, true⟩ : ClientState).connOpen
          ∧ st'.watchActive = (⟨true, true, true⟩ : ClientState).watchActive)
    ∧ (closeClient ⟨true, true, true⟩).bind closeClient = none :=
  closeClient_amended ⟨true, true, true⟩ rfl

/-- C8: on every execution path of `StartShell` the very first action is the
watch subscription on `path.Join(localDir, "...")`; on the successful path
the Phase 1 walk occurs strictly later (position 5 of the trace), so the
subscription is established before the initial walk begins. -/
theorem subscribe_before_walk (localDir : List Char)
    (files : List (List Char × List Char)) :
    startShellTrace localDir files true true true true
      = ShellAction.subscribeDir (filepathJoin2 localDir ("...").data)
          :: ShellAction.openSession :: ShellAction.plumbPipes
          :: ShellAction.requestPty :: ShellAction.startShell
          :: ShellAction.walkLocal localDir
          :: (files.map (fun pr => ShellAction.syncFile pr.1 pr.2)
              ++ [ShellAction.consumeEvents])
    ∧ ∀ so po pt sh, (startShellTrace localDir files so po pt sh).head?
        = some (ShellAction.subscribeDir (filepathJoin2 localDir ("...").data)) :=
  ⟨rfl, fun _ _ _ _ => rfl⟩

/-- C9: parsing `user[:password]@host[:port][:remotePath]` succeeds with the
stated fields in every shape — full form, no remote path, no port (which
defaults to 22), and no password — while a string without `@`-separated
user and host parts fails with the `malformed SSH address string` error
quoting the string, and a non-numeric port fails with the `invalid port`
error quoting that fragment. -/
theorem sshaddrParse_spec (u p h ds d bad badport : List Char) (pt : Nat)
    (hu1 : '@' ∉ u) (hu2 : ':' ∉ u)
    (hp1 : '@' ∉ p)
    (hh1 : '@' ∉ h) (hh2 : ':' ∉ h)
    (hds1 : '@' ∉ ds) (hds2 : ':' ∉ ds)
    (hdsn : natFromDigits ds = some pt)
    (hd1 : '@' ∉ d) (hd2 : ':' ∉ d)
    (hbad : '@' ∉ bad)
    (hbp1 : '@' ∉ badport) (hbp2 : ':' ∉ badport)
    (hbpn : natFromDigits badport = none) :
    sshaddrParse (u ++ ':' :: p ++ '@' :: (h ++ ':' :: ds ++ ':' :: d))
      = .ok ⟨u, p, h, pt, some d⟩
    ∧ sshaddrParse (u ++ ':' :: p ++ '@' :: (h ++ ':' :: ds))
      = .ok ⟨u, p, h, pt, none⟩
    ∧ sshaddrParse (u ++ ':' :: p ++ '@' :: h) = .ok ⟨u, p, h, 22, none⟩
    ∧ sshaddrParse (u ++ '@' :: h) = .ok ⟨u, [], h, 22, none⟩
    ∧ sshaddrParse bad
      = .error (("malformed SSH address string (").data ++ bad ++ (")").data)
    ∧ sshaddrParse (u ++ '@' :: (h ++ ':' :: badport))
      = .error (("invalid port (").data ++ badport ++ (")").data) := by
  have hat : ('@' : Char) ≠ ':' := by decide
  have hA : '@' ∉ (u ++ ':' :: p) := by
    intro hm
    rcases List.mem_append.mp hm with hmu | hmc
    · exact hu1 hmu
    · rcases List.mem_cons.mp hmc with he | hmp
      · exact hat he
      · exact hp1 hmp
  have hcreds : splitChar ':' (u ++ ':' :: p) = u :: splitChar ':' p := by
    rw [splitChar_append, splitChar_eq_single ':' u hu2]
    rfl
  have huser : sshaddrUser (u ++ ':' :: p) = u := by
    rw [sshaddrUser, hcreds]
    rfl
  have hpass : sshaddrPass (u ++ ':' :: p) = p := by
    rw [sshaddrPass, hcreds]
    exact intercalateChar_splitChar ':' p
  have huser2 : sshaddrUser u = u := by
    rw [sshaddrUser, splitChar_eq_single ':' u hu2]
    rfl
  have hpass2 : sshaddrPass u = [] := by
    rw [sshaddrPass, splitChar_eq_single ':' u hu2]
    rfl
  refine ⟨?_, ?_, ?_, ?_, ?_, ?_⟩
  · have hB : '@' ∉ (h ++ ':' :: ds ++ ':' :: d) := by
      intro hm
      rcases List.mem_append.mp hm with hm1 | hm2
      · rcases List.mem_append.mp hm1 with hmh | hmc
        · exact hh1 hmh
        · rcases List.mem_cons.mp hmc with he | hmds
          · exact hat he
          · exact hds1 hmds
      · rcases List.mem_cons.mp hm2 with he | hmd
        · exact hat he
        · exact hd1 hmd
    have hsplit1 : splitChar '@'
        ((u ++ ':' :: p) ++ '@' :: (h ++ ':' :: ds ++ ':' :: d))
        = [u ++ ':' :: p, h ++ ':' :: ds ++ ':' :: d] := by
      rw [splitChar_append, splitChar_eq_single '@' _ hA,
        splitChar_eq_single '@' _ hB]
      rfl
    have hhost : splitChar ':' (h ++ ':' :: ds ++ ':' :: d) = [h, ds, d] := by
      rw [show h ++ ':' :: ds ++ ':' :: d = h ++ ':' :: (ds ++ ':' :: d) from by simp,
        splitChar_append, splitChar_eq_single ':' h hh2,
        splitChar_append, splitChar_eq_single ':' ds hds2,
        splitChar_eq_single ':' d hd2]
      rfl
    rw [show u ++ ':' :: p ++ '@' :: (h ++ ':' :: ds ++ ':' :: d)
        = (u ++ ':' :: p) ++ '@' :: (h ++ ':' :: ds ++ ':' :: d) from by simp,
      sshaddrParse, hsplit1]
    show sshaddrHost (u ++ ':' :: p) (splitChar ':' (h ++ ':' :: ds ++ ':' :: d))
      = Except.ok ⟨u, p, h, pt, some d⟩
    rw [hhost, sshaddrHost, hdsn, huser, hpass]
  · have hB : '@' ∉ (h ++ ':' :: ds) := by
      intro hm
      rcases List.mem_append.mp hm with hmh | hmc
      · exact hh1 hmh
      · rcases List.mem_cons.mp hmc with he | hmds
        · exact hat he
        · exact hds1 hmds
    have hsplit1 : splitChar '@' ((u ++ ':' :: p) ++ '@' :: (h ++ ':' :: ds))
        = [u ++ ':' :: p, h ++ ':' :: ds] := by
      rw [splitChar_append, splitChar_eq_single '@' _ hA,
        splitChar_eq_single '@' _ hB]
      rfl
    have hhost : splitChar ':' (h ++ ':' :: ds) = [h, ds] := by
      rw [splitChar_append, splitChar_eq_single ':' h hh2,
        splitChar_eq_single ':' ds hds2]
      rfl
    rw [show u ++ ':' :: p ++ '@' :: (h ++ ':' :: ds)
        = (u ++ ':' :: p) ++ '@' :: (h ++ ':' :: ds) from by simp,
      sshaddrParse, hsplit1]
    show sshaddrHost (u ++ ':' :: p) (splitChar ':' (h ++ ':' :: ds))
      = Except.ok ⟨u, p, h, pt, none⟩
    rw [hhost, sshaddrHost, hdsn, huser, hpass]
  · have hsplit1 : splitChar '@' ((u ++ ':' :: p) ++ '@' :: h)
        = [u ++ ':' :: p, h] := by
      rw [splitChar_append, splitChar_eq_single '@' _ hA,
        splitChar_eq_single '@' _ hh1]
      rfl
    rw [show u ++ ':' :: p ++ '@' :: h = (u ++ ':' :: p) ++ '@' :: h from by simp,
      sshaddrParse, hsplit1]
    show sshaddrHost (u ++ ':' :: p) (splitChar ':' h) = Except.ok ⟨u, p, h, 22, none⟩
    rw [splitChar_eq_single ':' h hh2, sshaddrHost, huser, hpass]
  · have hsplit1 : splitChar '@' (u ++ '@' :: h) = [u, h] := by
      rw [splitChar_append, splitChar_eq_single '@' _ hu1,
        splitChar_eq_single '@' _ hh1]
      rfl
    rw [sshaddrParse, hsplit1]
    show sshaddrHost u (splitChar ':' h) = Except.ok ⟨u, [], h, 22, none⟩
    rw [splitChar_eq_single ':' h hh2, sshaddrHost, huser2, hpass2]
  · rw [sshaddrParse, splitChar_eq_single '@' bad hbad]
  · have hB : '@' ∉ (h ++ ':' :: badport) := by
      intro hm
      rcases List.mem_append.mp hm with hmh | hmc
      · exact hh1 hmh
      · rcases List.mem_cons.mp hmc with he | hmb
        · exact hat he
        · exact hbp1 hmb
    have hsplit1 : splitChar '@' (u ++ '@' :: (h ++ ':' :: badport))
        = [u, h ++ ':' :: badport] := by
      rw [splitChar_append, splitChar_eq_single '@' _ hu1,
        splitChar_eq_single '@' _ hB]
      rfl
    have hhost : splitChar ':' (h ++ ':' :: badport) = [h, badport] := by
      rw [splitChar_append, splitChar_eq_single ':' h hh2,
        splitChar_eq_single ':' badport hbp2]
      rfl
    rw [sshaddrParse, hsplit1]
    show sshaddrHost u (splitChar ':' (h ++ ':' :: badport))
      = Except.error (("invalid port (").data ++ badport ++ (")").data)
    rw [hhost, sshaddrHost, hbpn]

/-- Witness for C9 at the README address shape
`user:pa:ss@foobar.com:2222:/tmp/foobar`, the malformed string `nohost`,
and the non-numeric port `abc`. -/
theorem sshaddrParse_spec_witness :
    sshaddrParse (("user").data ++ ':' :: ("pa:ss").data
        ++ '@' :: (("foobar.com").data ++ ':' :: ("2222").data
          ++ ':' :: ("/tmp/foobar").data))
      = .ok ⟨("user").data, ("pa:ss").data, ("foobar.com").data, 2222,
          some ("/tmp/foobar").data⟩
    ∧ sshaddrParse (("user").data ++ ':' :: ("pa:ss").data
        ++ '@' :: (("foobar.com").data ++ ':' :: ("2222").data))
      = .ok ⟨("user").data, ("pa:ss").data, ("foobar.com").data, 2222, none⟩
    ∧ sshaddrParse (("user").data ++ ':' :: ("pa:ss").data
        ++ '@' :: ("foobar.com").data)
      = .ok ⟨("user").data, ("pa:ss").data, ("foobar.com").data, 22, none⟩
    ∧ sshaddrParse (("user").data ++ '@' :: ("foobar.com").data)
      = .ok ⟨("user").data, [], ("foobar.com").data, 22, none⟩
    ∧ sshaddrParse ("nohost").data
      = .error (("malformed SSH address string (").data ++ ("nohost").data
          ++ (")").data)
    ∧ sshaddrParse (("user").data
        ++ '@' :: (("foobar.com").data ++ ':' :: ("abc").data))
      = .error (("invalid port (").data ++ ("abc").data ++ (")").data) :=
  sshaddrParse_spec ("user").data ("pa:ss").data ("foobar.com").data
    ("2222").data ("/tmp/foobar").data ("nohost").data ("abc").data 2222
    (by decide) (by decide) (by decide) (by decide) (by decide) (by decide)
    (by decide) (by decide) (by decide) (by decide) (by decide) (by decide)
    (by decide) (by decide)

end Pssh
